import Mathlib

/-!
Verification of the YGY rank-qualification and volume-reallocation engine.

The definitions below are a shallow embedding of the Python sources
(ygy_data_setup.py, individual_rank_planner.py).  Volumes are modelled as
rationals (the code uses decimal-valued floats on small integral data),
dates as integer day numbers, and the recursive graph traversals, which the
original code performs with unbounded Python recursion, are given an explicit
fuel parameter: a result of `none` corresponds to a computation whose
recursion does not bottom out (divergence / stack exhaustion in Python).
String-formatted report lines are modelled as inductive message records
carrying the numeric and identifier payloads interpolated by the code;
pure display text (names, dollar formatting) is abstracted away.
-/

namespace YGY

/-- A member's enrollment-date field, as consumed by `can_pcust_be_moved`:
the raw value can be absent/empty/'nan' (`missing`), a string none of the
four accepted strptime formats can parse (`unparseable`), or a date that
parses to a calendar day, modelled as a day number (`parsed`).  The
datetime library calls themselves are external and modelled abstractly. -/
inductive JoinDate where
  | missing
  | unparseable (raw : String)
  | parsed (day : ℤ)
deriving DecidableEq

/-- One record of `team_data` (keyed by member id), with the fields the
embedded functions read.  `pqv` is the personal qualifying volume. -/
structure MemberInfo where
  name : String := ""
  title : String := ""
  pqv : ℚ := 0
  sponsor_id : String := ""
  join_date : JoinDate := .missing
deriving DecidableEq

/-- `team_data`: insertion-ordered dictionary from member id to record. -/
abbrev TeamData := List (String × MemberInfo)

/-- `downline_tree`: dictionary from sponsor id to list of direct sponsees. -/
abbrev DownlineTree := List (String × List String)

/-- The memoization cache `calculated_ranks` (member id → rank); a Python
dict assignment is modelled by consing, lookup returns the newest binding. -/
abbrev RankCache := List (String × String)

/-- `downline_tree.get(member_id, [])`. -/
def childrenOf (tree : DownlineTree) (m : String) : List String :=
  (tree.lookup m).getD []

/-- Python `str.upper()`, modelled character-wise (the data is ASCII). -/
def pyToUpper (s : String) : String := String.mk (s.data.map Char.toUpper)

/-- Python `str.strip()`: drop leading and trailing whitespace. -/
def pyStrip (s : String) : String :=
  String.mk (((s.data.dropWhile Char.isWhitespace).reverse.dropWhile
    Char.isWhitespace).reverse)

/-- `member_info.get('title','').upper().strip() == 'PCUST'`. -/
def isPCUSTTitle (s : String) : Bool :=
  pyStrip (pyToUpper s) == "PCUST"

/-- One entry of `RANK_REQUIREMENTS` (the `description` display string is
omitted; it is read by no embedded computation). -/
structure RankReq where
  min_pqv : ℚ
  min_gqv_3cl : ℚ
  min_qualified_legs : Nat
  leg_rank_requirement : Option String
deriving DecidableEq

/-- The `RANK_REQUIREMENTS` configuration table of ygy_data_setup.py. -/
def RANK_REQUIREMENTS : List (String × RankReq) :=
  [ ("PCUST", ⟨0, 0, 0, none⟩),
    ("ASC",   ⟨50, 0, 0, none⟩),
    ("BRA",   ⟨100, 0, 0, none⟩),
    ("SA",    ⟨150, 0, 3, some "ASC"⟩),
    ("SRA",   ⟨200, 1000, 3, some "BRA"⟩),
    ("1SE",   ⟨250, 5400, 3, some "SA"⟩),
    ("2SE",   ⟨300, 7500, 3, some "1SE"⟩),
    ("3SE",   ⟨300, 10500, 5, some "1SE"⟩),
    ("4SE",   ⟨300, 27000, 6, some "1SE"⟩),
    ("5SE",   ⟨300, 43200, 9, some "1SE"⟩),
    ("EA",    ⟨300, 75000, 12, some "1SE"⟩),
    ("RA",    ⟨300, 150000, 15, some "1SE"⟩),
    ("DA",    ⟨300, 300000, 18, some "1SE"⟩),
    ("BDA",   ⟨300, 600000, 21, some "1SE"⟩) ]

/-- `RANK_HIERARCHY` (lowest to highest). -/
def RANK_HIERARCHY : List String :=
  ["PCUST", "ASC", "BRA", "SA", "SRA", "1SE", "2SE", "3SE", "4SE", "5SE",
   "EA", "RA", "DA", "BDA"]

/-- `get_rank_level`: index in `RANK_HIERARCHY`, defaulting to 0 when the
rank is not found (the Python code catches the ValueError). -/
def get_rank_level (r : String) : Nat :=
  (RANK_HIERARCHY.findIdx? (· == r)).getD 0

/-- Inner body of the for-loop of `calculate_gqv_3cl.traverse_compressed_levels`:
walk the current sponsee list at `level`.  A sponsee absent from `team_data`
is skipped entirely (`continue`); a sponsee with at least 50 PQV contributes
its PQV and its own downline is traversed at `level + 1`; a sponsee below
50 PQV contributes nothing and its downline is traversed at the same level
(compression).  `recurse` is the enclosing recursive traversal (applied at
one fuel step fewer); `none` means the recursion did not bottom out. -/
def gqvChildren (recurse : String → Nat → Option ℚ) (team : TeamData) :
    List String → Nat → Option ℚ
  | [], _ => some 0
  | s :: ss, level =>
    match team.lookup s with
    | none => gqvChildren recurse team ss level
    | some info =>
      if 50 ≤ info.pqv then
        match recurse s (level + 1), gqvChildren recurse team ss level with
        | some a, some b => some (info.pqv + a + b)
        | _, _ => none
      else
        match recurse s level, gqvChildren recurse team ss level with
        | some a, some b => some (a + b)
        | _, _ => none

/-- `traverse_compressed_levels(current_id, current_level)` with fuel
bounding the recursion depth (each Python call frame consumes one unit). -/
def gqvAux : Nat → TeamData → DownlineTree → String → Nat → Option ℚ
  | 0, _, _, _, _ => none
  | fuel + 1, team, tree, cur, level =>
    if 3 < level then some 0
    else gqvChildren (gqvAux fuel team tree) team (childrenOf tree cur) level

/-- `calculate_gqv_3cl(member_id, team_data, downline_tree)`: traversal of
the member's direct downline starting at compressed level 1. -/
def calculate_gqv_3cl (fuel : Nat) (member : String) (team : TeamData)
    (tree : DownlineTree) : Option ℚ :=
  gqvAux fuel team tree member 1

/-- `meets_rank_requirements(member_id, target_rank, team_data,
downline_tree, calculated_ranks)`.  The PQV check happens before the
GQV-3CL computation, so a failing PQV check never touches the downline;
`none` is propagated from a non-terminating GQV-3CL traversal. -/
def meets_rank_requirements (gqvFuel : Nat) (member target : String)
    (team : TeamData) (tree : DownlineTree) (cache : RankCache) :
    Option Bool :=
  match RANK_REQUIREMENTS.lookup target with
  | none => some false
  | some req =>
    let pv := ((team.lookup member).map MemberInfo.pqv).getD 0
    if pv < req.min_pqv then some false
    else
      match calculate_gqv_3cl gqvFuel member team tree with
      | none => none
      | some g =>
        if g < req.min_gqv_3cl then some false
        else if 0 < req.min_qualified_legs then
          let legLevel :=
            match req.leg_rank_requirement with
            | some lr => get_rank_level lr
            | none => 0
          let qualified := (childrenOf tree member).countP fun c =>
            decide (legLevel ≤ get_rank_level ((cache.lookup c).getD "PCUST"))
          if qualified < req.min_qualified_legs then some false else some true
        else some true

/-- The loop `for rank in reversed(RANK_HIERARCHY): if meets(...): break`
over an explicit rank list, as a first-match scan parameterised by the
per-rank test; falls through to the initial value 'PCUST'. -/
def scanFirst (m : String → Option Bool) : List String → Option String
  | [] => some "PCUST"
  | r :: rs =>
    match m r with
    | none => none
    | some true => some r
    | some false => scanFirst m rs

/-- The distributor branch of `get_paid_as_rank`: scan the hierarchy from
highest to lowest for the first rank whose requirements are met. -/
def findQualifiedRank (gqvFuel : Nat) (member : String) (team : TeamData)
    (tree : DownlineTree) (cache : RankCache) (l : List String) :
    Option String :=
  scanFirst (fun r => meets_rank_requirements gqvFuel member r team tree cache) l

/-- The loop `for sponsee_id in direct_sponsees: get_paid_as_rank(...)`:
resolve each child in order, threading the cache; the child's returned rank
is discarded (only the cache update matters). -/
def resolveChildren (resolve : RankCache → String → Option (RankCache × String)) :
    RankCache → List String → Option RankCache
  | cache, [] => some cache
  | cache, c :: cs =>
    match resolve cache c with
    | none => none
    | some (cache', _) => resolveChildren resolve cache' cs

/-- `get_paid_as_rank(member_id, team_data, downline_tree, calculated_ranks)`.
Exactly as in the source: a cached member returns immediately; a member
absent from `team_data` is cached as 'PCUST'; otherwise all direct sponsees
are resolved first (bottom-up), then the member's own rank is decided by the
title check / highest-to-lowest requirement scan, and cached.  No
placeholder is written at call entry.  Fuel bounds the recursion depth;
`none` models Python's unbounded recursion failing to return. -/
def getPaidAsRank : Nat → TeamData → DownlineTree → RankCache → String →
    Option (RankCache × String)
  | 0, _, _, _, _ => none
  | fuel + 1, team, tree, cache, member =>
    match cache.lookup member with
    | some r => some (cache, r)
    | none =>
      match team.lookup member with
      | none => some ((member, "PCUST") :: cache, "PCUST")
      | some info =>
        match resolveChildren (getPaidAsRank fuel team tree) cache
            (childrenOf tree member) with
        | none => none
        | some cache' =>
          if isPCUSTTitle info.title then
            some ((member, "PCUST") :: cache', "PCUST")
          else
            match findQualifiedRank fuel member team tree cache'
                RANK_HIERARCHY.reverse with
            | none => none
            | some rank => some ((member, rank) :: cache', rank)

/-- A top-level resolution pass for one member: `get_paid_as_rank` called
with a fresh (empty) memoization cache, keeping only the rank. -/
def resolveRank (fuel : Nat) (team : TeamData) (tree : DownlineTree)
    (member : String) : Option String :=
  (getPaidAsRank fuel team tree [] member).map (·.2)

/-- Non-termination of a full resolution pass: for every recursion-depth
bound the resolver fails to return (the Python original recurses without
bound on such an input). -/
def resolverDiverges (team : TeamData) (tree : DownlineTree)
    (member : String) : Prop :=
  ∀ fuel, getPaidAsRank fuel team tree [] member = none

/-- A witness of a sponsorship cycle: a set of directory members each of
which has a direct sponsee inside the set. -/
def cycleSet (team : TeamData) (tree : DownlineTree) (S : String → Prop) : Prop :=
  ∀ x, S x → (team.lookup x).isSome = true ∧ ∃ y, y ∈ childrenOf tree x ∧ S y

/-- Over-approximation of the member records a resolution or aggregation
started at `x` can read: `x` itself, and anything reached by tree edges
whose sources are directory members. -/
inductive Touches (team : TeamData) (tree : DownlineTree) :
    String → String → Prop
  | refl (x : String) : Touches team tree x x
  | step (x y z : String) : (team.lookup x).isSome = true →
      y ∈ childrenOf tree x → Touches team tree y z → Touches team tree x z

/-- The directory with member `m`'s personal volume replaced by `v` and
every other record unchanged. -/
def updatePqv (team : TeamData) (m : String) (v : ℚ) : TeamData :=
  team.map fun p => if p.1 == m then (p.1, { p.2 with pqv := v }) else p

/-! ### Specification-side models (for the refinement claims)

These definitions follow the wording of the specification, to be compared
with the source-translated definitions above. -/

/-- Spec §4.3 rank decision checks, as worded: personal volume at least the
rank's minimum, compressed group volume at least the rank's minimum, and,
when the rank requires N qualifying children of rank at least R, at least
N direct children whose already-resolved rank is at least R (unresolved
children count as the lowest rank).  The static requirement table is the
shared configuration. -/
def specQualifies (pv gqv : ℚ) (children : List String) (cache : RankCache)
    (r : String) : Bool :=
  match RANK_REQUIREMENTS.lookup r with
  | none => false
  | some req =>
    decide (req.min_pqv ≤ pv) && decide (req.min_gqv_3cl ≤ gqv) &&
      (if 0 < req.min_qualified_legs then
        decide (req.min_qualified_legs ≤ children.countP fun c =>
          decide (((req.leg_rank_requirement.map get_rank_level).getD 0) ≤
            get_rank_level ((cache.lookup c).getD "PCUST")))
      else true)

/-- Spec §4.3 scan, as worded: the first rank, from highest to lowest, for
which all checks hold; the lowest rank if none above it qualifies. -/
def specRankScan (pv gqv : ℚ) (children : List String) (cache : RankCache) :
    String :=
  (RANK_HIERARCHY.reverse.find? (specQualifies pv gqv children cache)).getD
    "PCUST"

/-- Spec §4.4 tiered compression, as worded: process a list of children at a
tier (nothing past tier 3 counts); a directory child with personal volume at
least the threshold of 50 contributes its volume and its own children are
processed at the next tier; a child below the threshold contributes nothing
but its children are processed at the same tier.  Children absent from the
Member Directory have no personal volume and are not considered.  The same
fuel discipline (one unit per processed children-list) is used, `none`
standing for a traversal that does not terminate. -/
def specCompressedTier : Nat → TeamData → DownlineTree → List String → Nat →
    Option ℚ
  | 0, _, _, _, _ => none
  | fuel + 1, team, tree, children, tier =>
    if 3 < tier then some 0
    else
      (children.filterMap fun c => (team.lookup c).map fun i => (c, i)).foldr
        (fun (p : String × MemberInfo) (acc : Option ℚ) =>
          match acc with
          | none => none
          | some b =>
            if (50 : ℚ) ≤ p.2.pqv then
              match specCompressedTier fuel team tree
                  (childrenOf tree p.1) (tier + 1) with
              | none => none
              | some a => some (p.2.pqv + a + b)
            else
              match specCompressedTier fuel team tree
                  (childrenOf tree p.1) tier with
              | none => none
              | some a => some (a + b))
        (some (0 : ℚ))

/-- Spec §4.4 `compressedVolume(memberId)`: the member's direct children
processed starting at tier 1. -/
def specCompressedVolume (fuel : Nat) (team : TeamData) (tree : DownlineTree)
    (member : String) : Option ℚ :=
  specCompressedTier fuel team tree (childrenOf tree member) 1

/-- The compression qualification threshold of the source (the literal
`50.0` in `calculate_gqv_3cl`). -/
def GQV_THRESHOLD : ℚ := 50

/-- The nonzero personal-volume minimums of the requirement table. -/
def nonzeroPqvMinimums : List ℚ :=
  RANK_REQUIREMENTS.filterMap fun p =>
    if p.2.min_pqv ≠ 0 then some p.2.min_pqv else none

/-! ### Strategic asset classifier (60-day rule) -/

/-- Reason codes of the `can_pcust_be_moved` result dictionary, one per
`result['reason']` assignment site (the interpolated numbers are carried as
payloads; surrounding display text is abstracted). -/
inductive MoveReason where
  | notPcust
  | noEnrollmentDate
  | cannotParse (raw : String)
  | withinWindow (daysRemaining : ℤ)
  | exceededWindow (daysOver : ℤ)
deriving DecidableEq

/-- The result dictionary of `can_pcust_be_moved` (the formatted
`enrollment_date` display string is omitted). -/
structure MoveResult where
  can_move : Bool
  days_since_enrollment : Option ℤ
  days_remaining : ℤ
  reason : MoveReason
deriving DecidableEq

/-- `can_pcust_be_moved(member_info, current_date)`: the 60-day PCUST move
rule.  Dates are day numbers; `currentDay - d` is the integer day difference
`(current_date.date() - enrollment_date.date()).days`. -/
def can_pcust_be_moved (info : MemberInfo) (currentDay : ℤ) : MoveResult :=
  if ¬ isPCUSTTitle info.title then
    ⟨false, none, 0, .notPcust⟩
  else
    match info.join_date with
    | .missing => ⟨false, none, 0, .noEnrollmentDate⟩
    | .unparseable raw => ⟨false, none, 0, .cannotParse raw⟩
    | .parsed d =>
      let days_since := currentDay - d
      let days_remaining := max 0 (60 - days_since)
      if days_since ≤ 60 then
        ⟨true, some days_since, days_remaining, .withinWindow days_remaining⟩
      else
        ⟨false, some days_since, days_remaining,
          .exceededWindow (days_since - 60)⟩

/-! ### Hierarchy level assignment -/

/-- `find_organizational_root(team_data)`: the first member in directory
order whose (stripped) sponsor reference is empty, 'nan', or not a key of
the directory; `none` when no member qualifies. -/
def find_organizational_root (team : TeamData) : Option String :=
  (team.find? fun p =>
    let s := pyStrip p.2.sponsor_id
    s == "" || s == "nan" || (team.lookup s).isNone).map (·.1)

/-- `levels[current_id] = current_level`: overwrite an existing key in
place, otherwise append (Python dict update order). -/
def setLevel (levels : List (String × ℚ)) (k : String) (v : ℚ) :
    List (String × ℚ) :=
  if levels.any (fun p => p.1 == k) then
    levels.map fun p => if p.1 == k then (k, v) else p
  else levels ++ [(k, v)]

/-- The breadth-first loop of `calculate_hierarchical_levels`: pop the queue
head, record its level, and enqueue every direct sponsee not yet recorded at
level + 0.1.  The Python `round(next_level, 1)` only compensates binary
float error and is the identity on these exact rationals.  Fuel bounds the
number of loop iterations. -/
def bfsLevels : Nat → DownlineTree → List (String × ℚ) →
    List (String × ℚ) → Option (List (String × ℚ))
  | _, _, [], levels => some levels
  | 0, _, _ :: _, _ => none
  | fuel + 1, tree, (cur, lvl) :: queue, levels =>
    let levels' := setLevel levels cur lvl
    let newOnes := (childrenOf tree cur).filterMap fun s =>
      if levels'.any (fun p => p.1 == s) then none
      else some (s, lvl + 1 / 10)
    bfsLevels fuel tree (queue ++ newOnes) levels'

/-- `calculate_hierarchical_levels(team_data, downline_tree)`: find the
organizational root (same scan as `find_organizational_root`); when none is
found the function prints a warning and returns the empty mapping; otherwise
breadth-first levels from the root at level 0. -/
def calculate_hierarchical_levels (fuel : Nat) (team : TeamData)
    (tree : DownlineTree) : Option (List (String × ℚ)) :=
  match find_organizational_root team with
  | none => some []
  | some root => bfsLevels fuel tree [(root, 0)] []

/-! ### Volume reallocation planner -/

/-- One movable order (volume donor unit), as built by
`identify_strategic_assets`; the origin-date display field is omitted. -/
structure MovableOrder where
  pcust_id : String := ""
  pcust_name : String := ""
  order_number : String := ""
  volume : ℚ := 0
deriving DecidableEq

/-- `sorted(volume_donors, key=lambda x: x.get('volume', 0), reverse=True)`:
stable descending sort by volume.  Implemented as a stable insertion sort,
which produces the same list as Python's stable sort: an element is placed
before the first earlier-sorted element of strictly smaller volume and after
all elements of greater or equal volume. -/
def insertVolumeDesc (o : MovableOrder) : List MovableOrder →
    List MovableOrder
  | [] => [o]
  | x :: xs =>
    if x.volume ≤ o.volume then o :: x :: xs else x :: insertVolumeDesc o xs

/-- Stable descending sort of an order pool by volume. -/
def sortOrdersDesc (l : List MovableOrder) : List MovableOrder :=
  l.foldr insertVolumeDesc []

/-- The report lines appended by `suggest_pqv_moves`, one constructor per
`suggestions.append` site, carrying the interpolated numeric/identifier
payloads (leader and donor display names are presentation-only and
omitted). -/
inductive PqvSuggestion where
  /-- "[OK] No personal PQV needed - meets rank requirement" -/
  | okNoPqvNeeded
  /-- "[PERSONAL] ...: Add $gap in personal volume..." (empty-pool branch) -/
  | personalAdd (amount : ℚ)
  /-- "[TARGET] ... needs $gap in personal PQV - Strategic Order Moves:" -/
  | targetHeader (gap : ℚ)
  /-- "[MOVE k] donor order → leader: $volume" -/
  | move (k : Nat) (donorId orderNumber : String) (volume : ℚ)
  /-- "[PERSONAL] Add $remaining+ personal PQV (new orders)" -/
  | personalRemaining (amount : ℚ)
  /-- "[SOLUTION] Total Strategy: $total ($moved moves + $personal personal)" -/
  | solution (total moved personal : ℚ)
deriving DecidableEq

/-- The selection loop of `suggest_pqv_moves`: walk the sorted pool; stop
when the accumulated total reaches the gap; skip non-positive volumes
without counting them; stop after the fifth counted move even if the gap is
unmet and more orders remain.  Returns the selected orders numbered in
selection order, and the accumulated total. -/
def selectOrders (gap : ℚ) : List MovableOrder → ℚ → Nat →
    List (Nat × MovableOrder) × ℚ
  | [], total, _ => ([], total)
  | o :: os, total, count =>
    if gap ≤ total then ([], total)
    else if o.volume ≤ 0 then selectOrders gap os total count
    else
      let total' := total + o.volume
      if 5 ≤ count + 1 then ([(count + 1, o)], total')
      else
        let rest := selectOrders gap os total' (count + 1)
        ((count + 1, o) :: rest.1, rest.2)

/-- `suggest_pqv_moves(pqv_gap, volume_donors, leader_info)`: report lines
for closing one personal-volume gap from the order pool. -/
def suggest_pqv_moves (pqv_gap : ℚ) (volume_donors : List MovableOrder) :
    List PqvSuggestion :=
  if pqv_gap ≤ 0 then [.okNoPqvNeeded]
  else if volume_donors.isEmpty then [.personalAdd pqv_gap]
  else
    let sorted := sortOrdersDesc volume_donors
    let sel := selectOrders pqv_gap sorted 0 0
    let total_suggested := sel.2
    let remaining_gap := max 0 (pqv_gap - total_suggested)
    [PqvSuggestion.targetHeader pqv_gap] ++
      (sel.1.map fun p => .move p.1 p.2.pcust_id p.2.order_number p.2.volume) ++
      (if 0 < remaining_gap then [.personalRemaining remaining_gap] else []) ++
      [.solution (total_suggested + remaining_gap) total_suggested
        remaining_gap]

/-- Is a report line a "[MOVE ...]" line? -/
def isMoveLine : PqvSuggestion → Bool
  | .move _ _ _ _ => true
  | _ => false

/-! ### Individual rank planner (individual_rank_planner.py) -/

/-- One entry of `potential_qualifying_legs` as assembled by
`analyze_individual_rank_advancement`. -/
structure PotentialLeg where
  id : String := ""
  name : String := ""
  current_rank : String := ""
  current_pqv : ℚ := 0
  target_rank : String := ""
  pqv_gap : ℚ := 0
deriving DecidableEq

/-- `sorted(potential_legs, key=lambda x: x['pqv_gap'])`: stable ascending
insertion sort by the leg's personal-volume gap. -/
def insertLegAsc (x : PotentialLeg) : List PotentialLeg → List PotentialLeg
  | [] => [x]
  | y :: ys =>
    if y.pqv_gap < x.pqv_gap then y :: insertLegAsc x ys else x :: y :: ys

/-- Stable ascending sort of potential legs by gap. -/
def sortLegsAsc (l : List PotentialLeg) : List PotentialLeg :=
  l.foldr insertLegAsc []

/-- The recommendation lines of `generate_individual_move_strategy`, one
constructor per `recommendations.append` site (display names and dollar
formatting abstracted; identifier and numeric payloads kept). -/
inductive IndivRec where
  /-- "[STRATEGY] Complete Rank Advancement Plan for {name}" -/
  | strategyHeader
  /-- "" -/
  | blank
  /-- "[PERSONAL PQV] Need $gap additional personal volume:" -/
  | personalHeader (gap : ℚ)
  /-- "   [SOLUTION] Move orders to {name} (ID: {id}):" -/
  | personalSolution (targetId : String)
  /-- "   [MOVE k] {donor} {order} → {id} {name}: $vol" -/
  | personalMove (k : Nat) (orderNumber targetId : String) (volume : ℚ)
  /-- "   [PERSONAL] Add $remaining+ new personal orders" -/
  | personalAddNew (amount : ℚ)
  /-- "   [ALERT] Only $avail available volume - need $short new..." -/
  | personalShortfall (available shortfall : ℚ)
  /-- "[QUALIFYING LEGS] Need {legs_gap} more {rank}+ legs:" -/
  | legsHeader (legsGap : Nat) (legRank : Option String)
  /-- "   [LEG i] {name} (ID: {id}) - {cur} → {target}" -/
  | legHeader (i : Nat) (legId currentRank targetRank : String)
  /-- "            Current PQV: $pqv | Need: $gap" -/
  | legCurrentLine (currentPqv gap : ℚ)
  /-- "            [SOLUTION] Move orders to {legName}:" -/
  | legSolution (legId : String)
  /-- "            [MOVE] {donor} {order} → {legId} {legName}: $vol" -/
  | legMove (orderNumber legId : String) (volume : ℚ)
  /-- "            [ALERT] Insufficient volume - need $short more" -/
  | legShortfall (short : ℚ)
  /-- "   [SUCCESS] All {legs_gap} qualifying legs can be built!" -/
  | legsSuccess (legsGap : Nat)
  /-- "   [PARTIAL] Only {solved} of {legs_gap} legs have sufficient volume" -/
  | legsPartial (solved : Nat) (legsGap : Nat)
  /-- "[SUMMARY] Total Strategic Moves Required: {n}" -/
  | summaryLine (totalMoves : Nat)
  /-- "[OUTCOME] {name} advancement to {leg_requirement_rank}" -/
  | outcomeLine (legRank : Option String)
deriving DecidableEq

/-- The personal-gap selection loop of `generate_individual_move_strategy`:
walk the sorted pool accumulating every order (no volume filter, no count
cap) until the running total reaches the gap. -/
def indivSelect (gap : ℚ) : List MovableOrder → ℚ → List MovableOrder
  | [], _ => []
  | o :: os, total =>
    if gap ≤ total then [] else o :: indivSelect gap os (total + o.volume)

/-- The per-leg selection loop: iterate a sorted snapshot of the available
pool, accumulating until the leg gap is reached and removing each chosen
order (first occurrence) from the live available pool.  Returns the chosen
orders and the remaining pool. -/
def legSelect (gap : ℚ) : List MovableOrder → List MovableOrder → ℚ →
    List MovableOrder × List MovableOrder
  | [], avail, _ => ([], avail)
  | o :: os, avail, total =>
    if gap ≤ total then ([], avail)
    else
      let rest := legSelect gap os (avail.erase o) (total + o.volume)
      (o :: rest.1, rest.2)

/-- The `for i, leg in enumerate(potential_legs_sorted[:legs_gap])` loop:
for each leg, if the summed available volume covers the leg's gap, pick
orders (largest first) from a sorted snapshot, removing them from the
available pool for subsequent legs, and count the leg as solved; otherwise
report the shortfall.  Returns the lines and the solved-leg count. -/
def legsLoop : List PotentialLeg → List MovableOrder → Nat →
    List IndivRec × Nat
  | [], _, _ => ([], 0)
  | leg :: rest, avail, i =>
    let header : List IndivRec :=
      [.legHeader (i + 1) leg.id leg.current_rank leg.target_rank,
       .legCurrentLine leg.current_pqv leg.pqv_gap]
    let availVol := (avail.map MovableOrder.volume).sum
    if leg.pqv_gap ≤ availVol then
      let picked := legSelect leg.pqv_gap (sortOrdersDesc avail) avail 0
      let moves := picked.1.map fun o => IndivRec.legMove o.order_number
        leg.id o.volume
      let restOut := legsLoop rest picked.2 (i + 1)
      (header ++ [.legSolution leg.id] ++ moves ++ [.blank] ++ restOut.1,
        restOut.2 + 1)
    else
      let restOut := legsLoop rest avail (i + 1)
      (header ++ [.legShortfall (leg.pqv_gap - availVol)] ++ [.blank] ++
        restOut.1, restOut.2)

/-- Count of "[MOVE" lines (`len([r for r in recommendations if '[MOVE' in
r])`): both the personal "[MOVE k]" and the leg "[MOVE]" lines match. -/
def countMoveRecs (l : List IndivRec) : Nat :=
  l.countP fun r =>
    match r with
    | .personalMove _ _ _ _ => true
    | .legMove _ _ _ => true
    | _ => false

/-- `generate_individual_move_strategy(target_member_id, member_name,
pqv_gap, potential_legs, legs_gap, volume_donors, leg_requirement_rank)`.
The personal-gap section draws on the full donor pool; the legs section
excludes only the first `legs_gap` donors in original pool order
(`volume_donors[:legs_gap]`), not the orders actually chosen for the
personal gap.  The dead local `used_volume` (computed, never read) is
omitted. -/
def generate_individual_move_strategy (target_member_id : String)
    (pqv_gap : ℚ) (potential_legs : List PotentialLeg) (legs_gap : Nat)
    (volume_donors : List MovableOrder) (leg_requirement_rank : Option String) :
    List IndivRec :=
  let intro : List IndivRec := [.strategyHeader, .blank]
  let personal : List IndivRec :=
    if 0 < pqv_gap then
      let available_volume := (volume_donors.map MovableOrder.volume).sum
      let body : List IndivRec :=
        if pqv_gap ≤ available_volume then
          let sel := indivSelect pqv_gap (sortOrdersDesc volume_donors) 0
          let running_total := (sel.map MovableOrder.volume).sum
          let remaining_gap := max 0 (pqv_gap - running_total)
          [IndivRec.personalSolution target_member_id] ++
            (sel.enum.map fun p => IndivRec.personalMove (p.1 + 1)
              p.2.order_number target_member_id p.2.volume) ++
            (if 0 < remaining_gap then [.personalAddNew remaining_gap]
             else [])
        else
          [.personalShortfall available_volume (pqv_gap - available_volume)]
      [IndivRec.personalHeader pqv_gap] ++ body ++ [.blank]
    else []
  let legs : List IndivRec :=
    if 0 < legs_gap then
      let sortedLegs := sortLegsAsc potential_legs
      let available_for_legs := volume_donors.filter fun o =>
        ¬ (volume_donors.take legs_gap).contains o
      let loopOut := legsLoop (sortedLegs.take legs_gap) available_for_legs 0
      [IndivRec.legsHeader legs_gap leg_requirement_rank] ++ loopOut.1 ++
        (if legs_gap ≤ loopOut.2 then [IndivRec.legsSuccess legs_gap]
         else [.legsPartial loopOut.2 legs_gap]) ++ [.blank]
    else []
  let beforeSummary := intro ++ personal ++ legs
  beforeSummary ++ [.summaryLine (countMoveRecs beforeSummary),
    .outcomeLine leg_requirement_rank]

/-! ## Concrete inputs used by witnesses and counterexamples -/

/-- Single member enrolled as a Customer, with high personal volume. -/
def custTeam : TeamData := [("C", { title := "PCUST", pqv := 500 })]

/-- The §8 qualification scenario: a Distributor with 150 personal volume,
no downline. -/
def scTeam : TeamData := [("M", { title := "DIST", pqv := 150 })]

/-- Two members sponsoring each other: a malformed cyclic graph. -/
def cycTeam : TeamData :=
  [("A", { title := "DIST", pqv := 100, sponsor_id := "B" }),
   ("B", { title := "DIST", pqv := 100, sponsor_id := "A" })]

/-- Downline tree of `cycTeam`. -/
def cycTree : DownlineTree := [("A", ["B"]), ("B", ["A"])]

/-- Movable order of volume 40. -/
def order40 : MovableOrder := { pcust_id := "D1", order_number := "O40", volume := 40 }

/-- Movable order of volume 70. -/
def order70 : MovableOrder := { pcust_id := "D2", order_number := "O70", volume := 70 }

/-- Six orders of volume 10 each. -/
def sixTens : List MovableOrder :=
  [{ order_number := "T1", volume := 10 }, { order_number := "T2", volume := 10 },
   { order_number := "T3", volume := 10 }, { order_number := "T4", volume := 10 },
   { order_number := "T5", volume := 10 }, { order_number := "T6", volume := 10 }]

/-- A potential qualifying leg with a 50-volume gap. -/
def leg50 : PotentialLeg :=
  { id := "L1", current_rank := "PCUST", target_rank := "ASC", pqv_gap := 50 }

/-- Single Distributor with 40 personal volume. -/
def lowTeam : TeamData := [("M", { title := "DIST", pqv := 40 })]

/-! ## Supporting lemmas -/

theorem lookup_nil_str {β : Type} (k : String) :
    List.lookup k ([] : List (String × β)) = none := rfl

/-- A per-rank test that always answers like the boolean test `q` makes the
first-match scan return the first `q`-satisfying rank, with 'PCUST' as the
fallthrough default. -/
theorem scanFirst_of_all_some (q : String → Bool) (m : String → Option Bool)
    (l : List String) (h : ∀ r ∈ l, m r = some (q r)) :
    scanFirst m l = some ((l.find? q).getD "PCUST") := by
  induction l with
  | nil => rfl
  | cons a t ih =>
    have ha := h a (by simp)
    by_cases hq : q a
    · simp [scanFirst, ha, hq, List.find?]
    · simp only [Bool.not_eq_true] at hq
      simp only [scanFirst, ha, hq, List.find?]
      exact ih fun r hr => h r (by simp [hr])

/-- With a successful group-volume computation in hand,
`meets_rank_requirements` answers exactly the three-condition check worded
in the specification. -/
theorem meets_eq_specQualifies (fuel : Nat) (member target : String)
    (team : TeamData) (tree : DownlineTree) (cache : RankCache) (g : ℚ)
    (hg : calculate_gqv_3cl fuel member team tree = some g) :
    meets_rank_requirements fuel member target team tree cache =
      some (specQualifies (((team.lookup member).map MemberInfo.pqv).getD 0)
        g (childrenOf tree member) cache target) := by
  unfold meets_rank_requirements specQualifies
  cases hreq : RANK_REQUIREMENTS.lookup target with
  | none => rfl
  | some req =>
    simp only []
    set pv := (((team.lookup member).map MemberInfo.pqv).getD 0) with hpv
    by_cases h1 : pv < req.min_pqv
    · simp [h1, not_le.mpr h1]
    · rw [if_neg h1]
      rw [hg]
      dsimp only
      have h1' : req.min_pqv ≤ pv := not_lt.mp h1
      by_cases h2 : g < req.min_gqv_3cl
      · simp [h2, h1', not_le.mpr h2]
      · have h2' : req.min_gqv_3cl ≤ g := not_lt.mp h2
        rw [if_neg h2]
        by_cases h3 : 0 < req.min_qualified_legs
        · rw [if_pos h3, if_pos h3]
          cases hlr : req.leg_rank_requirement with
          | none =>
            simp only [hlr, Option.map_none', Option.getD_none]
            by_cases h4 : (childrenOf tree member).length <
                req.min_qualified_legs
            · simp [h4, h1', h2', not_le.mpr h4]
            · simp [h4, h1', h2', not_lt.mp h4]
          | some lr =>
            simp only [hlr, Option.map_some', Option.getD_some]
            by_cases h4 : (childrenOf tree member).countP (fun c =>
                decide (get_rank_level lr ≤
                  get_rank_level ((cache.lookup c).getD "PCUST"))) <
                req.min_qualified_legs
            · simp [h4, h1', h2', not_le.mpr h4]
            · simp [h4, h1', h2', not_lt.mp h4]
        · simp [if_neg h3, h1', h2']

/-! ## Claims -/

/-- C1.  A member whose enrollment title normalizes to PCUST (Customer) is
always resolved to the lowest rank by a fresh resolution pass, whatever the
member's personal volume, downline, or the rest of the directory. -/
theorem C1_customer_rank_locked (team : TeamData) (tree : DownlineTree)
    (member : String) (info : MemberInfo) (fuel : Nat) (c' : RankCache)
    (r : String)
    (hmem : team.lookup member = some info)
    (htitle : isPCUSTTitle info.title = true)
    (hrun : getPaidAsRank fuel team tree [] member = some (c', r)) :
    r = "PCUST" := by
  cases fuel with
  | zero => exact absurd hrun (by simp [getPaidAsRank])
  | succ n =>
    unfold getPaidAsRank at hrun
    rw [lookup_nil_str, hmem] at hrun
    cases hfold : resolveChildren (getPaidAsRank n team tree) []
        (childrenOf tree member) with
    | none => rw [hfold] at hrun; cases hrun
    | some cMid =>
      rw [hfold] at hrun
      dsimp only at hrun
      rw [if_pos htitle] at hrun
      exact ((Prod.mk.injEq _ _ _ _).mp (Option.some.injEq _ _ |>.mp hrun)).2.symm

/-- Witness for C1: a Customer carrying 500 personal volume resolves to
PCUST. -/
theorem C1_customer_rank_locked_witness :
    getPaidAsRank 1 custTeam [] [] "C" = some ([("C", "PCUST")], "PCUST") ∧
    "PCUST" = "PCUST" :=
  ⟨by decide,
   C1_customer_rank_locked custTeam [] "C" { title := "PCUST", pqv := 500 }
     1 [("C", "PCUST")] "PCUST" (by decide) (by decide) (by decide)⟩

/-- C2.  For a non-Customer member present in the directory, a resolution
step first resolves all direct sponsees (producing the intermediate cache),
and then assigns exactly the rank described by the specification's scan:
the first rank, highest to lowest, whose personal-volume, compressed
group-volume, and qualifying-children checks all hold against that cache,
falling through to the lowest rank. -/
theorem C2_distributor_rank_is_spec_scan (team : TeamData)
    (tree : DownlineTree) (cache₀ : RankCache) (member : String)
    (info : MemberInfo) (fuel : Nat) (g : ℚ) (c' : RankCache) (r : String)
    (hmem : team.lookup member = some info)
    (htitle : isPCUSTTitle info.title = false)
    (hcache : cache₀.lookup member = none)
    (hg : calculate_gqv_3cl fuel member team tree = some g)
    (hrun : getPaidAsRank (fuel + 1) team tree cache₀ member = some (c', r)) :
    ∃ cMid, resolveChildren (getPaidAsRank fuel team tree) cache₀
        (childrenOf tree member) = some cMid ∧
      r = specRankScan info.pqv g (childrenOf tree member) cMid ∧
      c' = (member, r) :: cMid := by
  unfold getPaidAsRank at hrun
  rw [hcache, hmem] at hrun
  cases hfold : resolveChildren (getPaidAsRank fuel team tree) cache₀
      (childrenOf tree member) with
  | none => rw [hfold] at hrun; cases hrun
  | some cMid =>
    rw [hfold] at hrun
    dsimp only at hrun
    rw [if_neg (by simp [htitle])] at hrun
    have hscan : findQualifiedRank fuel member team tree cMid
        RANK_HIERARCHY.reverse =
        some (specRankScan info.pqv g (childrenOf tree member) cMid) := by
      have hpv : (((team.lookup member).map MemberInfo.pqv).getD 0) = info.pqv := by
        rw [hmem]; rfl
      unfold findQualifiedRank specRankScan
      have := scanFirst_of_all_some
        (specQualifies info.pqv g (childrenOf tree member) cMid)
        (fun rk => meets_rank_requirements fuel member rk team tree cMid)
        RANK_HIERARCHY.reverse
        (fun rk _ => by
          have h := meets_eq_specQualifies fuel member rk team tree cMid g hg
          rw [hpv] at h
          exact h)
      rw [this]
    rw [hscan] at hrun
    dsimp only at hrun
    obtain ⟨h1, h2⟩ := (Prod.mk.injEq _ _ _ _).mp (Option.some.injEq _ _ |>.mp hrun)
    exact ⟨cMid, rfl, h2.symm, by rw [← h1, h2]⟩

/-- Witness for C2: the §8 scenario — a Distributor with 150 personal
volume, zero group volume and no qualifying children.  The scan stops below
SA (whose requirements are 150 PQV, 0 GQV, 3 legs of rank at least ASC)
because the children-count check fails, and resolves BRA. -/
theorem C2_distributor_rank_is_spec_scan_witness :
    (∃ cMid, resolveChildren (getPaidAsRank 1 scTeam []) []
        (childrenOf [] "M") = some cMid ∧
      "BRA" = specRankScan 150 0 (childrenOf [] "M") cMid ∧
      ([("M", "BRA")] : RankCache) = ("M", "BRA") :: cMid) ∧
    RANK_REQUIREMENTS.lookup "SA" = some ⟨150, 0, 3, some "ASC"⟩ ∧
    get_rank_level "BRA" < get_rank_level "SA" :=
  ⟨C2_distributor_rank_is_spec_scan scTeam [] [] "M"
      { title := "DIST", pqv := 150 } 1 0 [("M", "BRA")] "BRA"
      (by decide) (by decide) (by decide) (by decide) (by decide),
   by decide, by decide⟩

/-- The source traversal and the specification's tiered compression agree on
every children list, tier, and fuel. -/
theorem gqvAux_eq_specTier (team : TeamData) (tree : DownlineTree) :
    ∀ fuel cur level, gqvAux fuel team tree cur level =
      specCompressedTier fuel team tree (childrenOf tree cur) level := by
  intro fuel
  induction fuel with
  | zero => intro cur level; rfl
  | succ n ih =>
    intro cur level
    unfold gqvAux specCompressedTier
    by_cases hl : 3 < level
    · simp [hl]
    · rw [if_neg hl, if_neg hl]
      generalize (childrenOf tree cur) = cs
      induction cs with
      | nil => rfl
      | cons s ss ihs =>
        rw [List.filterMap_cons]
        cases hs : team.lookup s with
        | none => simp only [gqvChildren, hs]; exact ihs
        | some i =>
          simp only [gqvChildren, hs, Option.map_some', List.foldr_cons]
          rw [← ihs, ← ih s (level + 1), ← ih s level]
          cases hacc : gqvChildren (gqvAux n team tree) team ss level <;>
            cases hrec1 : gqvAux n team tree s (level + 1) <;>
              cases hrec2 : gqvAux n team tree s level <;>
                by_cases h50 : (50 : ℚ) ≤ i.pqv <;>
                  simp [h50, hacc, hrec1, hrec2]

/-- C3.  The source's GQV-3CL aggregation coincides with the specification's
tiered compression for every member, directory, tree, and fuel, and its
threshold constant 50 is exactly the lowest nonzero personal-volume minimum
of the requirement table. -/
theorem C3_gqv_equals_spec_compression :
    (∀ fuel member team tree, calculate_gqv_3cl fuel member team tree =
      specCompressedVolume fuel team tree member) ∧
    GQV_THRESHOLD ∈ nonzeroPqvMinimums ∧
    (∀ q ∈ nonzeroPqvMinimums, GQV_THRESHOLD ≤ q) :=
  ⟨fun fuel member team tree => gqvAux_eq_specTier team tree fuel member 1,
   by decide, by decide⟩

/-- Witness for C3: the equality evaluated at a concrete input, and the
threshold bound applied to the 150-volume minimum of rank SA. -/
theorem C3_gqv_equals_spec_compression_witness :
    calculate_gqv_3cl 3 "X" [] [] = specCompressedVolume 3 [] [] "X" ∧
    GQV_THRESHOLD ≤ 150 :=
  ⟨C3_gqv_equals_spec_compression.1 3 "X" [] [],
   C3_gqv_equals_spec_compression.2.2 150 (by decide)⟩

/-- C6.  The 60-day eligibility rule: for a Customer-class member with a
parsed enrollment date, movability is exactly elapsed-days ≤ 60 and the
remaining window is max 0 (60 − elapsed); a Customer with a missing or
unparseable date is not movable and carries the corresponding diagnostic
reason; a non-Customer is not movable under this rule. -/
theorem C6_sixty_day_rule (info : MemberInfo) (currentDay : ℤ) :
    (isPCUSTTitle info.title = true → ∀ d, info.join_date = .parsed d →
      (can_pcust_be_moved info currentDay).can_move =
          decide (currentDay - d ≤ 60) ∧
        (can_pcust_be_moved info currentDay).days_remaining =
          max 0 (60 - (currentDay - d)) ∧
        (can_pcust_be_moved info currentDay).days_since_enrollment =
          some (currentDay - d)) ∧
    (isPCUSTTitle info.title = true → info.join_date = .missing →
      (can_pcust_be_moved info currentDay).can_move = false ∧
        (can_pcust_be_moved info currentDay).reason = .noEnrollmentDate) ∧
    (isPCUSTTitle info.title = true → ∀ s, info.join_date = .unparseable s →
      (can_pcust_be_moved info currentDay).can_move = false ∧
        (can_pcust_be_moved info currentDay).reason = .cannotParse s) ∧
    (isPCUSTTitle info.title = false →
      (can_pcust_be_moved info currentDay).can_move = false ∧
        (can_pcust_be_moved info currentDay).reason = .notPcust) := by
  refine ⟨?_, ?_, ?_, ?_⟩
  · intro ht d hd
    unfold can_pcust_be_moved
    rw [hd, if_neg (by simp [ht])]
    dsimp only
    by_cases h60 : currentDay - d ≤ 60
    · simp [h60]
    · simp [h60]
  · intro ht hd
    unfold can_pcust_be_moved
    rw [hd, if_neg (by simp [ht])]
    exact ⟨rfl, rfl⟩
  · intro ht s hd
    unfold can_pcust_be_moved
    rw [hd, if_neg (by simp [ht])]
    exact ⟨rfl, rfl⟩
  · intro ht
    unfold can_pcust_be_moved
    rw [if_pos (by simp [ht])]
    exact ⟨rfl, rfl⟩

/-- Witness for C6: the §8 window scenarios — a Customer enrolled 61 days
before the as-of date is locked with zero days remaining; one enrolled 59
days before is movable with one day remaining. -/
theorem C6_sixty_day_rule_witness :
    (can_pcust_be_moved { title := "PCUST", join_date := .parsed (-61) } 0).can_move
        = false ∧
    (can_pcust_be_moved { title := "PCUST", join_date := .parsed (-61) } 0).days_remaining
        = 0 ∧
    (can_pcust_be_moved { title := "PCUST", join_date := .parsed (-59) } 0).can_move
        = true ∧
    (can_pcust_be_moved { title := "PCUST", join_date := .parsed (-59) } 0).days_remaining
        = 1 := by
  obtain ⟨h1a, h1b, -⟩ :=
    (C6_sixty_day_rule { title := "PCUST", join_date := .parsed (-61) } 0).1
      (by decide) (-61) rfl
  obtain ⟨h2a, h2b, -⟩ :=
    (C6_sixty_day_rule { title := "PCUST", join_date := .parsed (-59) } 0).1
      (by decide) (-59) rfl
  refine ⟨h1a.trans (by decide), h1b.trans (by decide),
    h2a.trans (by decide), h2b.trans (by decide)⟩

/-- C9 counterexample.  On a directory with no organizational root (each
member's sponsor resolves inside the directory), `find_organizational_root`
finds nothing and `calculate_hierarchical_levels` returns normally with the
empty level mapping — no error value is produced or propagated, refuting
the claim that the failure is surfaced to the caller rather than defaulted
to an empty result. -/
theorem C9_no_root_counterexample :
    find_organizational_root cycTeam = none ∧
    calculate_hierarchical_levels 5 cycTeam cycTree = some [] := by
  decide

/-- C9 amended.  Whenever no member qualifies as an organizational root,
`calculate_hierarchical_levels` returns the empty mapping (after printing a
console warning); no error is raised or propagated to the caller, and
`find_organizational_root` reports the condition only as `none`. -/
theorem C9_no_root_returns_empty (fuel : Nat) (team : TeamData)
    (tree : DownlineTree)
    (hroot : find_organizational_root team = none) :
    calculate_hierarchical_levels fuel team tree = some [] := by
  unfold calculate_hierarchical_levels
  rw [hroot]

/-- Witness for C9: the amended statement applied to the rootless two-member
cycle. -/
theorem C9_no_root_returns_empty_witness :
    calculate_hierarchical_levels 3 cycTeam cycTree = some [] :=
  C9_no_root_returns_empty 3 cycTeam cycTree (by decide)

/-- The selection loop never counts past five orders. -/
theorem selectOrders_length (gap : ℚ) :
    ∀ (l : List MovableOrder) (total : ℚ) (k : Nat), k < 5 →
      (selectOrders gap l total k).1.length + k ≤ 5 := by
  intro l
  induction l with
  | nil => intro total k hk; simpa [selectOrders] using Nat.le_of_lt hk
  | cons o os ih =>
    intro total k hk
    unfold selectOrders
    by_cases h1 : gap ≤ total
    · simpa [h1] using Nat.le_of_lt hk
    · rw [if_neg h1]
      by_cases h2 : o.volume ≤ 0
      · rw [if_pos h2]; exact ih total k hk
      · rw [if_neg h2]
        by_cases h3 : 5 ≤ k + 1
        · simp only [if_pos h3, List.length_cons, List.length_nil]
          omega
        · rw [if_neg h3]
          have := ih (total + o.volume) (k + 1) (by omega)
          simp only [List.length_cons]
          omega

/-- The loop total is the running start plus the selected volumes. -/
theorem selectOrders_sum (gap : ℚ) :
    ∀ (l : List MovableOrder) (total : ℚ) (k : Nat),
      (selectOrders gap l total k).2 =
        total + ((selectOrders gap l total k).1.map fun p => p.2.volume).sum := by
  intro l
  induction l with
  | nil => intro total k; simp [selectOrders]
  | cons o os ih =>
    intro total k
    unfold selectOrders
    by_cases h1 : gap ≤ total
    · simp [h1]
    · rw [if_neg h1]
      by_cases h2 : o.volume ≤ 0
      · rw [if_pos h2]; exact ih total k
      · rw [if_neg h2]
        by_cases h3 : 5 ≤ k + 1
        · simp [h3]
        · rw [if_neg h3]
          simp only [List.map_cons, List.sum_cons]
          rw [ih (total + o.volume) (k + 1)]
          ring

/-- Every selected order has strictly positive volume (non-positive orders
are skipped, never selected). -/
theorem selectOrders_pos (gap : ℚ) :
    ∀ (l : List MovableOrder) (total : ℚ) (k : Nat),
      ∀ p ∈ (selectOrders gap l total k).1, 0 < p.2.volume := by
  intro l
  induction l with
  | nil => intro total k p hp; simp [selectOrders] at hp
  | cons o os ih =>
    intro total k p hp
    unfold selectOrders at hp
    by_cases h1 : gap ≤ total
    · simp [h1] at hp
    · rw [if_neg h1] at hp
      by_cases h2 : o.volume ≤ 0
      · rw [if_pos h2] at hp; exact ih total k p hp
      · rw [if_neg h2] at hp
        by_cases h3 : 5 ≤ k + 1
        · rw [if_pos h3] at hp
          simp only [List.mem_cons, List.not_mem_nil, or_false] at hp
          subst hp
          exact lt_of_not_le h2
        · rw [if_neg h3] at hp
          simp only [List.mem_cons] at hp
          rcases hp with rfl | hp
          · exact lt_of_not_le h2
          · exact ih (total + o.volume) (k + 1) p hp

/-- If the loop stops with the gap unmet and fewer than five selections,
then it exhausted the pool: every order was either non-positive or
selected. -/
theorem selectOrders_exhausts (gap : ℚ) :
    ∀ (l : List MovableOrder) (total : ℚ) (k : Nat),
      (selectOrders gap l total k).2 < gap →
      (selectOrders gap l total k).1.length + k < 5 →
      ∀ o ∈ l, o.volume ≤ 0 ∨ o ∈ (selectOrders gap l total k).1.map (fun p => p.2) := by
  intro l
  induction l with
  | nil => intro total k _ _ o ho; simp at ho
  | cons o os ih =>
    intro total k hlt hlen o' ho'
    unfold selectOrders at hlt hlen ⊢
    by_cases h1 : gap ≤ total
    · rw [if_pos h1] at hlt
      exact absurd hlt (not_lt.mpr h1)
    · rw [if_neg h1] at hlt hlen ⊢
      by_cases h2 : o.volume ≤ 0
      · rw [if_pos h2] at hlt hlen ⊢
        rcases List.mem_cons.mp ho' with rfl | hmem
        · exact Or.inl h2
        · exact ih total k hlt hlen o' hmem
      · rw [if_neg h2] at hlt hlen ⊢
        by_cases h3 : 5 ≤ k + 1
        · rw [if_pos h3] at hlen
          simp at hlen
          omega
        · rw [if_neg h3] at hlt hlen ⊢
          rcases List.mem_cons.mp ho' with rfl | hmem
          · right; simp
          · rcases ih (total + o.volume) (k + 1) hlt (by simp at hlen ⊢; omega)
                o' hmem with h | h
            · exact Or.inl h
            · right; simp [h]

/-- C5 counterexample.  With a gap of 100 and six orders of volume 10 each,
the selection stops after the fifth order even though the gap (total 50) is
unmet and a sixth positive-volume order remains in the pool, and the
50-unit shortfall is reported as personal volume to add — refuting the
claim that accumulation continues until the gap is met or the pool is
exhausted. -/
theorem C5_counterexample :
    suggest_pqv_moves 100 sixTens =
      [.targetHeader 100, .move 1 "" "T1" 10, .move 2 "" "T2" 10,
       .move 3 "" "T3" 10, .move 4 "" "T4" 10, .move 5 "" "T5" 10,
       .personalRemaining 50, .solution 100 50 50] ∧
    (∀ o ∈ sixTens, 0 < o.volume) ∧ (50 : ℚ) < 100 ∧ sixTens.length = 6 := by
  refine ⟨?_, by decide, by norm_num, by decide⟩
  norm_num [suggest_pqv_moves, selectOrders, sortOrdersDesc, insertVolumeDesc,
    sixTens]

/-- C5 amended.  For a positive gap and a nonempty pool, the planner sorts
the pool by volume descending and accumulates greedily until the gap is
met, the pool is exhausted, or five orders have been selected; the total is
the sum of the selected volumes; when the loop stops early with fewer than
five picks the pool really is exhausted (every order non-positive or
selected); and a shortfall line (for exactly the unmet remainder) is
reported precisely when the gap is unmet. -/
theorem C5_greedy_largest_first (gap : ℚ) (donors : List MovableOrder)
    (hgap : 0 < gap) (hne : donors ≠ []) :
    suggest_pqv_moves gap donors =
      [PqvSuggestion.targetHeader gap] ++
      ((selectOrders gap (sortOrdersDesc donors) 0 0).1.map fun p =>
        .move p.1 p.2.pcust_id p.2.order_number p.2.volume) ++
      (if 0 < max 0 (gap - (selectOrders gap (sortOrdersDesc donors) 0 0).2)
       then [.personalRemaining
          (max 0 (gap - (selectOrders gap (sortOrdersDesc donors) 0 0).2))]
       else []) ++
      [.solution ((selectOrders gap (sortOrdersDesc donors) 0 0).2 +
          max 0 (gap - (selectOrders gap (sortOrdersDesc donors) 0 0).2))
        (selectOrders gap (sortOrdersDesc donors) 0 0).2
        (max 0 (gap - (selectOrders gap (sortOrdersDesc donors) 0 0).2))] ∧
    (selectOrders gap (sortOrdersDesc donors) 0 0).1.length ≤ 5 ∧
    (selectOrders gap (sortOrdersDesc donors) 0 0).2 =
      (((selectOrders gap (sortOrdersDesc donors) 0 0).1.map
        fun p => p.2.volume).sum) ∧
    ((selectOrders gap (sortOrdersDesc donors) 0 0).2 < gap →
      (selectOrders gap (sortOrdersDesc donors) 0 0).1.length < 5 →
      ∀ o ∈ sortOrdersDesc donors, o.volume ≤ 0 ∨
        o ∈ (selectOrders gap (sortOrdersDesc donors) 0 0).1.map (fun p => p.2)) ∧
    (PqvSuggestion.personalRemaining
        (gap - (selectOrders gap (sortOrdersDesc donors) 0 0).2) ∈
        suggest_pqv_moves gap donors ↔
      (selectOrders gap (sortOrdersDesc donors) 0 0).2 < gap) := by
  have hempty : donors.isEmpty = false := by
    cases donors with
    | nil => exact absurd rfl hne
    | cons a l => rfl
  have hout : suggest_pqv_moves gap donors =
      [PqvSuggestion.targetHeader gap] ++
      ((selectOrders gap (sortOrdersDesc donors) 0 0).1.map fun p =>
        .move p.1 p.2.pcust_id p.2.order_number p.2.volume) ++
      (if 0 < max 0 (gap - (selectOrders gap (sortOrdersDesc donors) 0 0).2)
       then [.personalRemaining
          (max 0 (gap - (selectOrders gap (sortOrdersDesc donors) 0 0).2))]
       else []) ++
      [.solution ((selectOrders gap (sortOrdersDesc donors) 0 0).2 +
          max 0 (gap - (selectOrders gap (sortOrdersDesc donors) 0 0).2))
        (selectOrders gap (sortOrdersDesc donors) 0 0).2
        (max 0 (gap - (selectOrders gap (sortOrdersDesc donors) 0 0).2))] := by
    unfold suggest_pqv_moves
    rw [if_neg (not_le.mpr hgap), hempty]
    rfl
  refine ⟨hout, ?_, ?_, ?_, ?_⟩
  · have := selectOrders_length gap (sortOrdersDesc donors) 0 0 (by omega)
    omega
  · simpa using selectOrders_sum gap (sortOrdersDesc donors) 0 0
  · intro hlt hlen
    exact selectOrders_exhausts gap (sortOrdersDesc donors) 0 0 hlt
      (by omega)
  · rw [hout]
    constructor
    · intro hmem
      by_contra hge
      have hle : gap - (selectOrders gap (sortOrdersDesc donors) 0 0).2 ≤ 0 :=
        sub_nonpos.mpr (not_lt.mp hge)
      rw [max_eq_left hle, if_neg (lt_irrefl 0)] at hmem
      simp at hmem
    · intro hlt
      have hpos : 0 < gap - (selectOrders gap (sortOrdersDesc donors) 0 0).2 :=
        sub_pos.mpr hlt
      rw [max_eq_right (le_of_lt hpos), if_pos hpos]
      simp

/-- Witness for C5 (amended): the §8 scenario — gap 100 against orders of
volume 40 and 70 selects [70, 40] (largest first), totals 110, and reports
no shortfall. -/
theorem C5_greedy_largest_first_witness :
    suggest_pqv_moves 100 [order40, order70] =
      [.targetHeader 100, .move 1 "D2" "O70" 70, .move 2 "D1" "O40" 40,
       .solution 110 110 0] := by
  have h := C5_greedy_largest_first 100 [order40, order70] (by norm_num)
    (by decide)
  rw [h.1]
  norm_num [selectOrders, sortOrdersDesc, insertVolumeDesc, order40, order70]

/-- C10.  The per-gap selection of `suggest_pqv_moves` emits at most five
move lines; every emitted move has strictly positive volume; and when the
greedy loop stops with the gap unmet (in particular after five picks with
positive orders still in the pool) the remaining amount is reported as
personal volume to add. -/
theorem C10_five_move_cap (gap : ℚ) (donors : List MovableOrder) :
    ((suggest_pqv_moves gap donors).countP isMoveLine ≤ 5) ∧
    (∀ k d o v, PqvSuggestion.move k d o v ∈ suggest_pqv_moves gap donors →
      0 < v) ∧
    (0 < gap → donors ≠ [] →
      (selectOrders gap (sortOrdersDesc donors) 0 0).2 < gap →
      PqvSuggestion.personalRemaining
          (gap - (selectOrders gap (sortOrdersDesc donors) 0 0).2) ∈
        suggest_pqv_moves gap donors) := by
  by_cases hgap : gap ≤ 0
  · refine ⟨?_, ?_, ?_⟩
    · simp [suggest_pqv_moves, hgap, isMoveLine]
    · intro k d o v hmem
      simp [suggest_pqv_moves, hgap] at hmem
    · intro h; exact absurd hgap (not_le.mpr h)
  · by_cases hne : donors = []
    · subst hne
      refine ⟨?_, ?_, ?_⟩
      · simp [suggest_pqv_moves, hgap, isMoveLine]
      · intro k d o v hmem
        simp [suggest_pqv_moves, hgap] at hmem
      · intro _ habs; exact absurd rfl habs
    · have h := C5_greedy_largest_first gap donors (not_le.mp hgap) hne
      refine ⟨?_, ?_, ?_⟩
      · rw [h.1]
        have hlen := h.2.1
        simp only [List.countP_append, List.countP_cons, List.countP_nil,
          List.countP_map]
        have hmoves : ((selectOrders gap (sortOrdersDesc donors) 0 0).1.countP
            (isMoveLine ∘ fun p => PqvSuggestion.move p.1 p.2.pcust_id
              p.2.order_number p.2.volume)) ≤ 5 := by
          calc ((selectOrders gap (sortOrdersDesc donors) 0 0).1.countP _) ≤
              (selectOrders gap (sortOrdersDesc donors) 0 0).1.length :=
                List.countP_le_length _
            _ ≤ 5 := hlen
        by_cases hrem :
            0 < max 0 (gap - (selectOrders gap (sortOrdersDesc donors) 0 0).2) <;>
          simp [hrem, isMoveLine] at hmoves ⊢ <;> omega
      · intro k d o v hmem
        rw [h.1] at hmem
        rcases List.mem_append.mp hmem with hx | hx
        swap
        · exact PqvSuggestion.noConfusion (List.mem_singleton.mp hx)
        rcases List.mem_append.mp hx with hy | hy
        swap
        · by_cases hrem :
              0 < max 0 (gap - (selectOrders gap (sortOrdersDesc donors) 0 0).2)
          · rw [if_pos hrem] at hy
            exact PqvSuggestion.noConfusion (List.mem_singleton.mp hy)
          · rw [if_neg hrem] at hy
            exact absurd hy (List.not_mem_nil _)
        rcases List.mem_append.mp hy with hz | hz
        · exact PqvSuggestion.noConfusion (List.mem_singleton.mp hz)
        · obtain ⟨p, hp, hpe⟩ := List.mem_map.mp hz
          have hpos := selectOrders_pos gap (sortOrdersDesc donors) 0 0 p hp
          injection hpe with e1 e2 e3 e4
          rw [← e4]
          exact hpos
      · intro hg hne2 hlt
        exact (h.2.2.2.2).mpr hlt

/-- Witness for C10: gap 100 against six positive orders of volume 10 — at
most five moves are emitted and the unmet remainder of 50 is reported as
personal volume. -/
theorem C10_five_move_cap_witness :
    (suggest_pqv_moves 100 sixTens).countP isMoveLine ≤ 5 ∧
    PqvSuggestion.personalRemaining 50 ∈ suggest_pqv_moves 100 sixTens := by
  have h := C10_five_move_cap 100 sixTens
  have hsel : (selectOrders 100 (sortOrdersDesc sixTens) 0 0).2 = 50 := by
    norm_num [selectOrders, sortOrdersDesc, insertVolumeDesc, sixTens]
  refine ⟨h.1, ?_⟩
  have hm := h.2.2 (by norm_num) (by decide) (by rw [hsel]; norm_num)
  rw [hsel] at hm
  have : (100 : ℚ) - 50 = 50 := by norm_num
  rwa [this] at hm

/-- C4.  The pool of `generate_individual_move_strategy` contains the order
O70 exactly once, yet the planner selects it both for the leader's personal
gap (as the first personal move) and again for the first child-leg gap: the
legs section excludes only the first `legs_gap` donors in original pool
order (here O40), not the orders actually consumed by the personal gap, so
one unit of donor volume satisfies two gaps in a single planning pass. -/
theorem C4_order_double_allocated :
    (([order40, order70].countP fun o => o.order_number == "O70") = 1) ∧
    IndivRec.personalMove 1 "O70" "T" 70 ∈
      generate_individual_move_strategy "T" 50 [leg50] 1 [order40, order70]
        (some "ASC") ∧
    IndivRec.legMove "O70" "L1" 70 ∈
      generate_individual_move_strategy "T" 50 [leg50] 1 [order40, order70]
        (some "ASC") := by
  refine ⟨by decide, ?_, ?_⟩ <;>
    · norm_num [generate_individual_move_strategy, indivSelect, legSelect,
        legsLoop, sortOrdersDesc, insertVolumeDesc, sortLegsAsc, insertLegAsc,
        order40, order70, leg50, List.erase]

/-- Cons-lookup at a different key. -/
theorem lookup_cons_ne {β : Type} (s z : String) (v : β)
    (c : List (String × β)) (h : s ≠ z) :
    List.lookup s ((z, v) :: c) = List.lookup s c := by
  have hb : (s == z) = false := beq_eq_false_iff_ne.mpr h
  simp [List.lookup, hb]

/-- Core divergence invariant: starting from any cache containing no member
of a cycle set, resolution either fails to return, or returns having
resolved only members outside the set and cached none of the set. -/
theorem getPaidAsRank_cycleSet (team : TeamData) (tree : DownlineTree)
    (S : String → Prop) (hS : cycleSet team tree S) :
    ∀ fuel z cache, (∀ s, S s → cache.lookup s = none) →
      getPaidAsRank fuel team tree cache z = none ∨
      ∃ c' r, getPaidAsRank fuel team tree cache z = some (c', r) ∧ ¬ S z ∧
        ∀ s, S s → c'.lookup s = none := by
  intro fuel
  induction fuel with
  | zero => intro z cache _; exact Or.inl rfl
  | succ n ih =>
    have hfold : ∀ (cs : List String) (cache : RankCache),
        (∀ s, S s → cache.lookup s = none) →
        resolveChildren (getPaidAsRank n team tree) cache cs = none ∨
        ∃ c', resolveChildren (getPaidAsRank n team tree) cache cs = some c' ∧
          (∀ s, S s → c'.lookup s = none) ∧ ∀ c ∈ cs, ¬ S c := by
      intro cs
      induction cs with
      | nil => intro cache hc; exact Or.inr ⟨cache, rfl, hc, by simp⟩
      | cons c cs ihc =>
        intro cache hc
        rcases ih c cache hc with hnone | ⟨c', r, hsome, hcS, hc'⟩
        · left; unfold resolveChildren; rw [hnone]
        · rcases ihc c' hc' with hnone2 | ⟨c'', hsome2, hc'', hall⟩
          · left; unfold resolveChildren; rw [hsome]; exact hnone2
          · right
            refine ⟨c'', ?_, hc'', ?_⟩
            · unfold resolveChildren; rw [hsome]; exact hsome2
            · intro x hx
              rcases List.mem_cons.mp hx with rfl | hx2
              · exact hcS
              · exact hall x hx2
    intro z cache hc
    cases hl : List.lookup z cache with
    | some r =>
      right
      refine ⟨cache, r, ?_, ?_, hc⟩
      · unfold getPaidAsRank; rw [hl]
      · intro hzS; rw [hc z hzS] at hl; cases hl
    | none =>
      cases hm : List.lookup z team with
      | none =>
        right
        have hzS : ¬ S z := by
          intro hzS
          have h1 := (hS z hzS).1
          rw [hm] at h1
          cases h1
        refine ⟨(z, "PCUST") :: cache, "PCUST", ?_, hzS, ?_⟩
        · unfold getPaidAsRank; rw [hl, hm]
        · intro s hs
          rw [lookup_cons_ne s z _ cache fun e => hzS (e ▸ hs)]
          exact hc s hs
      | some info =>
        rcases hfold (childrenOf tree z) cache hc with hnone | ⟨c', hsome, hc', hall⟩
        · left; unfold getPaidAsRank; rw [hl, hm, hnone]
        · by_cases hzS : S z
          · obtain ⟨-, y, hy1, hy2⟩ := hS z hzS
            exact absurd hy2 (hall y hy1)
          · by_cases ht : isPCUSTTitle info.title = true
            · right
              refine ⟨(z, "PCUST") :: c', "PCUST", ?_, hzS, ?_⟩
              · unfold getPaidAsRank
                rw [hl, hm, hsome]
                dsimp only
                rw [if_pos ht]
              · intro s hs
                rw [lookup_cons_ne s z _ c' fun e => hzS (e ▸ hs)]
                exact hc' s hs
            · cases hscan : findQualifiedRank n z team tree c'
                  RANK_HIERARCHY.reverse with
              | none =>
                left
                unfold getPaidAsRank
                rw [hl, hm, hsome]
                dsimp only
                rw [if_neg ht, hscan]
              | some rank =>
                right
                refine ⟨(z, rank) :: c', rank, ?_, hzS, ?_⟩
                · unfold getPaidAsRank
                  rw [hl, hm, hsome]
                  dsimp only
                  rw [if_neg ht, hscan]
                · intro s hs
                  rw [lookup_cons_ne s z _ c' fun e => hzS (e ▸ hs)]
                  exact hc' s hs

/-- Membership of a cycle set makes the resolver diverge from a fresh
cache. -/
theorem cycleSet_diverges (team : TeamData) (tree : DownlineTree)
    (S : String → Prop) (hS : cycleSet team tree S) (m : String) (hm : S m) :
    resolverDiverges team tree m := by
  intro fuel
  rcases getPaidAsRank_cycleSet team tree S hS fuel m [] (fun s _ => rfl) with
    h | ⟨c', r, _, hmS, _⟩
  · exact h
  · exact absurd hm hmS

/-- The two-member sponsorship cycle forms a cycle set. -/
theorem cycTeam_cycleSet :
    cycleSet cycTeam cycTree (fun x => x ∈ (["A", "B"] : List String)) := by
  intro x hx
  rcases List.mem_cons.mp hx with rfl | hx2
  · exact ⟨by decide, "B", by decide, by decide⟩
  · rcases List.mem_singleton.mp hx2 with rfl
    exact ⟨by decide, "A", by decide, by decide⟩

/-- C8 counterexample.  On the malformed two-member sponsorship cycle the
rank resolver never returns, whatever recursion bound is allowed: no
placeholder cache entry is written at call entry, so the memoization cache
does not act as a recursion guard and the resolver does not terminate on
every input. -/
theorem C8_cycle_divergence_counterexample :
    resolverDiverges cycTeam cycTree "A" :=
  cycleSet_diverges cycTeam cycTree _ cycTeam_cycleSet "A" (by decide)

/-- C8 amended.  The cache is a memoization of completed calls only: a
member already present in the cache is returned immediately with no further
recursion, but no placeholder is written at call entry, and on a cyclic
sponsor graph the resolver does not terminate (every recursion bound is
exhausted). -/
theorem C8_memo_without_entry_placeholder :
    (∀ (fuel : Nat) (team : TeamData) (tree : DownlineTree)
      (cache : RankCache) (m r : String), cache.lookup m = some r →
      getPaidAsRank (fuel + 1) team tree cache m = some (cache, r)) ∧
    resolverDiverges cycTeam cycTree "A" := by
  constructor
  · intro fuel team tree cache m r h
    unfold getPaidAsRank
    rw [h]
  · exact cycleSet_diverges cycTeam cycTree _ cycTeam_cycleSet "A"
      (by decide)

/-- Witness for C8 (amended): a pre-cached member is returned immediately
from the cache, even inside the cyclic directory. -/
theorem C8_memo_without_entry_placeholder_witness :
    getPaidAsRank 3 cycTeam cycTree [("A", "SRA")] "A" =
      some ([("A", "SRA")], "SRA") :=
  C8_memo_without_entry_placeholder.1 2 cycTeam cycTree [("A", "SRA")] "A"
    "SRA" (by decide)

/-- Updating a member's volume leaves every other lookup unchanged. -/
theorem lookup_updatePqv_ne (team : TeamData) (m : String) (v : ℚ)
    (x : String) (hx : x ≠ m) :
    List.lookup x (updatePqv team m v) = List.lookup x team := by
  induction team with
  | nil => rfl
  | cons p ps ih =>
    simp only [updatePqv, List.map_cons] at ih ⊢
    cases hpm : (p.1 == m) with
    | true =>
      have hxp : (x == p.1) = false :=
        beq_eq_false_iff_ne.mpr (beq_iff_eq.mp hpm ▸ hx)
      rw [if_pos rfl]
      show List.lookup x ((p.1, _) :: _) = List.lookup x (p :: ps)
      cases p with
      | mk k i => simp only [List.lookup, hxp]; exact ih
    | false =>
      rw [if_neg (by simp)]
      cases p with
      | mk k i =>
        cases hxk : (x == k) with
        | true => simp only [List.lookup, hxk]
        | false => simp only [List.lookup, hxk]; exact ih

/-- Updating a member's volume updates exactly that member's record. -/
theorem lookup_updatePqv_self (team : TeamData) (m : String) (v : ℚ)
    (info : MemberInfo) (h : team.lookup m = some info) :
    List.lookup m (updatePqv team m v) = some { info with pqv := v } := by
  induction team with
  | nil => cases h
  | cons p ps ih =>
    simp only [updatePqv, List.map_cons] at ih ⊢
    cases p with
    | mk k i =>
      cases hmk : (m == k) with
      | true =>
        have hkm : (k == m) = true := by
          rw [beq_iff_eq] at hmk ⊢; exact hmk.symm
        rw [if_pos hkm]
        simp only [List.lookup, hmk] at h ⊢
        cases h
        rfl
      | false =>
        have hkm : (k == m) = false := by
          rw [beq_eq_false_iff_ne] at hmk ⊢
          exact fun e => hmk e.symm
        rw [if_neg (by simp [hkm])]
        simp only [List.lookup, hmk] at h ⊢
        exact ih h

/-- Extending a touching path by one tree edge. -/
theorem touches_snoc (team : TeamData) (tree : DownlineTree) {a x y : String}
    (hax : Touches team tree a x) (hx : (team.lookup x).isSome = true)
    (hy : y ∈ childrenOf tree x) : Touches team tree a y := by
  induction hax with
  | refl a => exact Touches.step a y y hx hy (Touches.refl y)
  | step a w z ha hw _ ih => exact Touches.step a w y ha hw (ih hx hy)

/-- A direct sponsee of `m` that touches `m` back yields a cycle set
containing `m`. -/
theorem cycleSet_of_touches (team : TeamData) (tree : DownlineTree)
    (m c : String) (hm : (team.lookup m).isSome = true)
    (hc : c ∈ childrenOf tree m) (ht : Touches team tree c m) :
    cycleSet team tree
        (fun x => Touches team tree c x ∧ Touches team tree x m) ∧
      (Touches team tree c m ∧ Touches team tree m m) := by
  refine ⟨?_, ht, Touches.refl m⟩
  rintro x ⟨hcx, hxm⟩
  cases hxm with
  | refl => exact ⟨hm, c, hc, Touches.refl c, ht⟩
  | step x y _ hx hy hym =>
    exact ⟨hx, y, hy, touches_snoc team tree hcx hx hy, hym⟩

/-- If a fresh resolution pass for `m` returns, then no direct sponsee of
`m` touches `m` back (the reachable subgraph below `m` is cycle-free at
`m`). -/
theorem no_touch_of_success (team : TeamData) (tree : DownlineTree)
    (m : String) (fuel : Nat) (p : RankCache × String)
    (hm : (team.lookup m).isSome = true)
    (h : getPaidAsRank fuel team tree [] m = some p) :
    ∀ c ∈ childrenOf tree m, ¬ Touches team tree c m := by
  intro c hc ht
  obtain ⟨hS, hmS⟩ := cycleSet_of_touches team tree m c hm hc ht
  have hdiv := cycleSet_diverges team tree _ hS m hmS fuel
  rw [hdiv] at h
  cases h

/-- The group-volume traversal reads no data of `m` when no traversed child
touches `m`: updating `m`'s volume leaves it unchanged. -/
theorem gqvAux_frame (team : TeamData) (tree : DownlineTree) (m : String)
    (v : ℚ) :
    ∀ fuel cur level, (∀ c ∈ childrenOf tree cur, ¬ Touches team tree c m) →
      gqvAux fuel team tree cur level =
        gqvAux fuel (updatePqv team m v) tree cur level := by
  intro fuel
  induction fuel with
  | zero => intros; rfl
  | succ n ih =>
    intro cur level hnc
    unfold gqvAux
    by_cases hl : 3 < level
    · rw [if_pos hl, if_pos hl]
    · rw [if_neg hl, if_neg hl]
      have key : ∀ (cs : List String) (lvl : Nat),
          (∀ c ∈ cs, ¬ Touches team tree c m) →
          gqvChildren (gqvAux n team tree) team cs lvl =
            gqvChildren (gqvAux n (updatePqv team m v) tree)
              (updatePqv team m v) cs lvl := by
        intro cs
        induction cs with
        | nil => intros; rfl
        | cons s ss ihs =>
          intro lvl hcs
          have hsT : ¬ Touches team tree s m := hcs s (by simp)
          have hs_ne : s ≠ m := fun e => hsT (e ▸ Touches.refl s)
          unfold gqvChildren
          rw [lookup_updatePqv_ne team m v s hs_ne]
          cases hlk : List.lookup s team with
          | none => exact ihs lvl fun c hc => hcs c (by simp [hc])
          | some i =>
            have hchild : ∀ c ∈ childrenOf tree s, ¬ Touches team tree c m :=
              fun c hc hcm =>
                hsT (Touches.step s c m (by rw [hlk]; rfl) hc hcm)
            rw [← ih s (lvl + 1) hchild, ← ih s lvl hchild,
              ← ihs lvl fun c hc => hcs c (by simp [hc])]
      exact key (childrenOf tree cur) level hnc

/-- `meets_rank_requirements` for a directory member that does not touch
`m` is unchanged by updating `m`'s volume. -/
theorem meets_frame (team : TeamData) (tree : DownlineTree) (m : String)
    (v : ℚ) (fuel : Nat) (z : String) (cache : RankCache)
    (hzSome : (team.lookup z).isSome = true)
    (hz : ¬ Touches team tree z m) :
    ∀ target, meets_rank_requirements fuel z target team tree cache =
      meets_rank_requirements fuel z target (updatePqv team m v) tree cache := by
  intro target
  have hz_ne : z ≠ m := fun e => hz (e ▸ Touches.refl z)
  have hchild : ∀ c ∈ childrenOf tree z, ¬ Touches team tree c m :=
    fun c hc hcm => hz (Touches.step z c m hzSome hc hcm)
  unfold meets_rank_requirements calculate_gqv_3cl
  rw [lookup_updatePqv_ne team m v z hz_ne,
    ← gqvAux_frame team tree m v fuel z 1 hchild]

/-- Pointwise-equal per-rank tests scan identically. -/
theorem scanFirst_congr (m₁ m₂ : String → Option Bool)
    (h : ∀ r, m₁ r = m₂ r) : ∀ l, scanFirst m₁ l = scanFirst m₂ l := by
  intro l
  induction l with
  | nil => rfl
  | cons a t ih =>
    unfold scanFirst
    rw [h a]
    cases m₂ a with
    | none => rfl
    | some b => cases b with
      | true => rfl
      | false => exact ih

/-- A scan result is an element of the scanned list or the default. -/
theorem scanFirst_mem (m : String → Option Bool) :
    ∀ l r, scanFirst m l = some r → r ∈ l ∨ r = "PCUST" := by
  intro l
  induction l with
  | nil =>
    intro r h
    right
    exact (Option.some.injEq _ _ |>.mp h).symm
  | cons a t ih =>
    intro r h
    unfold scanFirst at h
    cases hm : m a with
    | none => rw [hm] at h; cases h
    | some b =>
      rw [hm] at h
      cases b with
      | true =>
        left
        rw [← Option.some.injEq _ _ |>.mp h]
        simp
      | false =>
        rcases ih r h with h1 | h1
        · exact Or.inl (by simp [h1])
        · exact Or.inr h1

/-- If the second test answers yes wherever the first does, the second scan
stops at a rank at least as high — over any list sorted from highest to
lowest level. -/
theorem scanFirst_mono (m₁ m₂ : String → Option Bool)
    (hmono : ∀ r, m₁ r = some true → m₂ r = some true) :
    ∀ l : List String,
      l.Pairwise (fun a b => get_rank_level b ≤ get_rank_level a) →
      ∀ r₁ r₂, scanFirst m₁ l = some r₁ → scanFirst m₂ l = some r₂ →
        get_rank_level r₁ ≤ get_rank_level r₂ := by
  intro l
  induction l with
  | nil =>
    intro _ r₁ r₂ h₁ h₂
    rw [← Option.some.injEq _ _ |>.mp h₁, ← Option.some.injEq _ _ |>.mp h₂]
  | cons a t ih =>
    intro hpair r₁ r₂ h₁ h₂
    obtain ⟨hhead, htail⟩ := List.pairwise_cons.mp hpair
    unfold scanFirst at h₁ h₂
    cases hm1 : m₁ a with
    | none => rw [hm1] at h₁; cases h₁
    | some b1 =>
      rw [hm1] at h₁
      cases b1 with
      | true =>
        rw [hmono a hm1] at h₂
        rw [← Option.some.injEq _ _ |>.mp h₁, ← Option.some.injEq _ _ |>.mp h₂]
      | false =>
        cases hm2 : m₂ a with
        | none => rw [hm2] at h₂; cases h₂
        | some b2 =>
          rw [hm2] at h₂
          cases b2 with
          | true =>
            rw [← Option.some.injEq _ _ |>.mp h₂]
            rcases scanFirst_mem m₁ t r₁ h₁ with hmem | hdef
            · exact hhead r₁ hmem
            · rw [hdef]
              have : get_rank_level "PCUST" = 0 := by decide
              rw [this]
              exact Nat.zero_le _
          | false => exact ih htail r₁ r₂ h₁ h₂

/-- The children-resolution fold is unchanged by updating `m`'s volume when
no folded child touches `m`, given the same property for single calls. -/
theorem resolveChildren_frame (team : TeamData) (tree : DownlineTree)
    (m : String) (v : ℚ) (n : Nat)
    (hframe : ∀ z cache, ¬ Touches team tree z m →
      getPaidAsRank n team tree cache z =
        getPaidAsRank n (updatePqv team m v) tree cache z) :
    ∀ (cs : List String) (cache : RankCache),
      (∀ c ∈ cs, ¬ Touches team tree c m) →
      resolveChildren (getPaidAsRank n team tree) cache cs =
        resolveChildren (getPaidAsRank n (updatePqv team m v) tree) cache cs := by
  intro cs
  induction cs with
  | nil => intros; rfl
  | cons c cs' ihc =>
    intro cache hcs
    unfold resolveChildren
    rw [← hframe c cache (hcs c (by simp))]
    cases hr : getPaidAsRank n team tree cache c with
    | none => rfl
    | some p =>
      cases p with
      | mk pc pr => exact ihc pc fun x hx => hcs x (by simp [hx])

/-- Resolution of a member that does not touch `m` is unchanged by updating
`m`'s volume. -/
theorem getPaidAsRank_frame (team : TeamData) (tree : DownlineTree)
    (m : String) (v : ℚ) :
    ∀ fuel z cache, ¬ Touches team tree z m →
      getPaidAsRank fuel team tree cache z =
        getPaidAsRank fuel (updatePqv team m v) tree cache z := by
  intro fuel
  induction fuel with
  | zero => intros; rfl
  | succ n ih =>
    intro z cache hz
    have hz_ne : z ≠ m := fun e => hz (e ▸ Touches.refl z)
    unfold getPaidAsRank
    cases hl : List.lookup z cache with
    | some r => rfl
    | none =>
      rw [lookup_updatePqv_ne team m v z hz_ne]
      cases hm2 : List.lookup z team with
      | none => rfl
      | some info =>
        have hzSome : (team.lookup z).isSome = true := by
          show (List.lookup z team).isSome = true
          rw [hm2]; rfl
        have hchild : ∀ c ∈ childrenOf tree z, ¬ Touches team tree c m :=
          fun c hc hcm => hz (Touches.step z c m hzSome hc hcm)
        rw [← resolveChildren_frame team tree m v n (fun z' cache' hz' => ih z' cache' hz')
          (childrenOf tree z) cache hchild]
        cases hres : resolveChildren (getPaidAsRank n team tree) cache
            (childrenOf tree z) with
        | none => rfl
        | some c' =>
          dsimp only
          by_cases ht : isPCUSTTitle info.title = true
          · rw [if_pos ht, if_pos ht]
          · rw [if_neg ht, if_neg ht]
            have hscan : findQualifiedRank n z team tree c'
                RANK_HIERARCHY.reverse =
                findQualifiedRank n z (updatePqv team m v) tree c'
                  RANK_HIERARCHY.reverse := by
              unfold findQualifiedRank
              exact scanFirst_congr _ _
                (fun r => meets_frame team tree m v n z c' hzSome hz r) _
            rw [hscan]

/-- Raising `m`'s personal volume can only turn requirement checks for `m`
from failing to passing, never the reverse, provided the compressed volume
below `m` is untouched. -/
theorem meets_mono_at (team : TeamData) (tree : DownlineTree) (m : String)
    (info : MemberInfo) (v : ℚ) (cache : RankCache) (fuel : Nat)
    (hmem : team.lookup m = some info) (hv : info.pqv ≤ v)
    (hgqv : calculate_gqv_3cl fuel m team tree =
      calculate_gqv_3cl fuel m (updatePqv team m v) tree) :
    ∀ target, meets_rank_requirements fuel m target team tree cache = some true →
      meets_rank_requirements fuel m target (updatePqv team m v) tree cache =
        some true := by
  intro target h
  unfold meets_rank_requirements at h ⊢
  cases hreq : RANK_REQUIREMENTS.lookup target with
  | none => rw [hreq] at h; simp at h
  | some req =>
    rw [hreq] at h
    dsimp only at h ⊢
    rw [hmem] at h
    rw [lookup_updatePqv_self team m v info hmem]
    dsimp only [Option.map_some', Option.getD_some] at h ⊢
    by_cases h1 : info.pqv < req.min_pqv
    · rw [if_pos h1] at h; cases h
    · rw [if_neg h1] at h
      have h1' : ¬ v < req.min_pqv := not_lt.mpr (le_trans (not_lt.mp h1) hv)
      rw [if_neg h1']
      rw [← hgqv]
      cases hg : calculate_gqv_3cl fuel m team tree with
      | none => rw [hg] at h; cases h
      | some g => rw [hg] at h; exact h

/-- C7.  Rank resolution is monotone in personal volume: holding the
directory, tree, and every other member's data fixed, raising a
non-Customer member's personal volume never lowers the rank a fresh
resolution pass assigns to that member (whenever both passes return). -/
theorem C7_rank_monotone_in_pqv (team : TeamData) (tree : DownlineTree)
    (m : String) (info : MemberInfo) (v : ℚ) (fuel : Nat) (r₁ r₂ : String)
    (hmem : team.lookup m = some info)
    (htitle : isPCUSTTitle info.title = false)
    (hv : info.pqv ≤ v)
    (h₁ : resolveRank fuel team tree m = some r₁)
    (h₂ : resolveRank fuel (updatePqv team m v) tree m = some r₂) :
    get_rank_level r₁ ≤ get_rank_level r₂ := by
  cases fuel with
  | zero => simp [resolveRank, getPaidAsRank] at h₁
  | succ n =>
    unfold resolveRank at h₁ h₂
    obtain ⟨⟨c₁, r₁x⟩, hrun₁, he₁⟩ := Option.map_eq_some'.mp h₁
    obtain ⟨⟨c₂, r₂x⟩, hrun₂, he₂⟩ := Option.map_eq_some'.mp h₂
    dsimp only at he₁ he₂
    subst he₁
    subst he₂
    have hzSome : (team.lookup m).isSome = true := by
      show (List.lookup m team).isSome = true
      rw [hmem]; rfl
    have hnt : ∀ c ∈ childrenOf tree m, ¬ Touches team tree c m :=
      no_touch_of_success team tree m (n + 1) _ hzSome hrun₁
    unfold getPaidAsRank at hrun₁ hrun₂
    rw [lookup_nil_str, hmem] at hrun₁
    rw [lookup_nil_str, lookup_updatePqv_self team m v info hmem] at hrun₂
    dsimp only at hrun₁ hrun₂
    rw [← resolveChildren_frame team tree m v n
      (fun z' cache' hz' => getPaidAsRank_frame team tree m v n z' cache' hz')
      (childrenOf tree m) [] hnt] at hrun₂
    cases hfold : resolveChildren (getPaidAsRank n team tree) []
        (childrenOf tree m) with
    | none => rw [hfold] at hrun₁; cases hrun₁
    | some cMid =>
      rw [hfold] at hrun₁ hrun₂
      dsimp only at hrun₁ hrun₂
      rw [if_neg (by simp [htitle])] at hrun₁
      rw [if_neg (by simp [htitle])] at hrun₂
      cases hscan₁ : findQualifiedRank n m team tree cMid
          RANK_HIERARCHY.reverse with
      | none => rw [hscan₁] at hrun₁; cases hrun₁
      | some s₁ =>
        rw [hscan₁] at hrun₁
        cases hscan₂ : findQualifiedRank n m (updatePqv team m v) tree cMid
            RANK_HIERARCHY.reverse with
        | none => rw [hscan₂] at hrun₂; cases hrun₂
        | some s₂ =>
          rw [hscan₂] at hrun₂
          have hr₁ : s₁ = r₁x :=
            ((Prod.mk.injEq _ _ _ _).mp
              (Option.some.injEq _ _ |>.mp hrun₁)).2
          have hr₂ : s₂ = r₂x :=
            ((Prod.mk.injEq _ _ _ _).mp
              (Option.some.injEq _ _ |>.mp hrun₂)).2
          have hgqveq : calculate_gqv_3cl n m team tree =
              calculate_gqv_3cl n m (updatePqv team m v) tree := by
            unfold calculate_gqv_3cl
            exact gqvAux_frame team tree m v n m 1 hnt
          have hmono := meets_mono_at team tree m info v cMid n hmem hv hgqveq
          have hle := scanFirst_mono
            (fun r => meets_rank_requirements n m r team tree cMid)
            (fun r => meets_rank_requirements n m r (updatePqv team m v) tree
              cMid)
            hmono RANK_HIERARCHY.reverse (by decide) s₁ s₂ hscan₁ hscan₂
          rw [hr₁, hr₂] at hle
          exact hle

/-- Witness for C7: a lone Distributor at 40 personal volume resolves to
PCUST; raising the volume to 150 resolves to BRA, a strictly higher rank. -/
theorem C7_rank_monotone_in_pqv_witness :
    get_rank_level "PCUST" ≤ get_rank_level "BRA" :=
  C7_rank_monotone_in_pqv lowTeam [] "M" { title := "DIST", pqv := 40 } 150 2
    "PCUST" "BRA" (by decide) (by decide) (by decide) (by decide) (by decide)

end YGY

